import Mathlib

/-!
Verification development for the theme-music-creator repository.

The repository has two parts:
* a context-aware caching / command-safety core used by automation hooks
  (TTLCache, ProjectContextResolver, WorktreeContextResolver,
  GitContextReader, BranchMetadataParser, CommandSafetyGate); its code is
  not shipped under src/, so it is modelled here from the specification;
* an audio-rendering web backend under src/backend, from which
  `apply_overrides` (render_utils.py) and `quantize_notes` (midi_utils.py)
  are embedded directly.

Commands and path segments are modelled at the character-list level so that
all operations are executable and decidable.
-/

/-! ### CommandSafetyGate (modelled from the spec, §4.7) -/

/-- Modelled from the spec: the double-quote character (the safety gate
strips surrounding quotes from path arguments). -/
def dquoteChar : Char := Char.ofNat 34

/-- Modelled from the spec: the single-quote character. -/
def squoteChar : Char := Char.ofNat 39

/-- Modelled from the spec: whitespace-collapsing tokenizer helper.
Accumulates the current word (reversed) and emits words between
whitespace runs, so runs of whitespace collapse away. -/
def wordsAux : List Char → List Char → List (List Char)
  | [], acc => if acc.isEmpty then [] else [acc.reverse]
  | c :: cs, acc =>
    if c.isWhitespace then
      if acc.isEmpty then wordsAux cs [] else acc.reverse :: wordsAux cs []
    else wordsAux cs (c :: acc)

/-- Modelled from the spec: normalization step of `classify` — lowercase the
command, then collapse whitespace runs by splitting into tokens. -/
def CommandSafetyGate.tokens (cmd : String) : List (List Char) :=
  wordsAux (cmd.toList.map Char.toLower) []

/-- Modelled from the spec: a short flag token (single dash followed by
flag letters, not a long `--` option). -/
def isShortFlag : List Char → Bool
  | '-' :: c :: _ => c != '-'
  | _ => false

/-- Modelled from the spec: a short flag token carrying the given flag
letter anywhere among its letters (interleaved spellings). -/
def shortFlagHas (ch : Char) (t : List Char) : Bool :=
  isShortFlag t && (t.drop 1).contains ch

/-- Modelled from the spec: Stage A pattern bank over the flag tokens —
interleaved short flags holding both `r` and `f` in any letter order,
long-form `--recursive --force` in either order, and a short recursive
flag plus a short force flag separated by other tokens. -/
def hasRecursiveForceCombo (toks : List (List Char)) : Bool :=
  toks.any (fun t => shortFlagHas 'r' t && shortFlagHas 'f' t)
  || (toks.contains "--recursive".toList && toks.contains "--force".toList)
  || (toks.any (shortFlagHas 'r') && toks.any (shortFlagHas 'f'))

/-- Modelled from the spec: a recursive-delete flag is present (short `r`
flag or long `--recursive`). -/
def hasRecursiveFlag (toks : List (List Char)) : Bool :=
  toks.any (shortFlagHas 'r') || toks.contains "--recursive".toList

/-- Modelled from the spec: Stage B dangerous-target fragments — root path,
root with wildcard, home shorthand bare or with trailing slash, a
home-directory environment reference, parent-directory reference, bare
wildcard, and current-directory forms including a trailing lone dot. -/
def dangerousTargets : List (List Char) :=
  ["/", "/*", "~", "~/", "$home", "..", "*", ".", "./", "./*"].map String.toList

/-- Modelled from the spec: Stage A — the command token is the recognized
delete command `rm` and the remaining tokens spell a recursive-force
delete. -/
def CommandSafetyGate.stageA (toks : List (List Char)) : Bool :=
  match toks with
  | cmd :: rest => cmd == "rm".toList && hasRecursiveForceCombo rest
  | [] => false

/-- Modelled from the spec: Stage B — a recursive delete flag is present
and some token is a dangerous-target fragment. -/
def CommandSafetyGate.stageB (toks : List (List Char)) : Bool :=
  match toks with
  | cmd :: rest =>
    cmd == "rm".toList && hasRecursiveFlag rest
      && rest.any (fun t => dangerousTargets.contains t)
  | [] => false

/-- Modelled from the spec: a flag token (starts with a dash). -/
def isFlagToken : List Char → Bool
  | '-' :: _ => true
  | _ => false

/-- Modelled from the spec: strip one layer of surrounding quotes
(matching double or single quotes) from a path token. -/
def stripQuotes (t : List Char) : List Char :=
  match t with
  | [] => []
  | c :: rest =>
    if (c == dquoteChar || c == squoteChar) && rest.getLast? == some c then
      rest.dropLast
    else c :: rest

/-- Modelled from the spec: extract path arguments — everything following
the recognized command token that is not a flag token, with surrounding
quotes stripped. -/
def CommandSafetyGate.extractPaths (toks : List (List Char)) : List (List Char) :=
  match toks with
  | cmd :: rest =>
    if cmd == "rm".toList then (rest.filter (fun t => !isFlagToken t)).map stripQuotes
    else []
  | [] => []

/-- Modelled from the spec: accept an optional leading `./` on an
extracted path before prefix comparison. -/
def stripDotSlash (p : List Char) : List Char :=
  match p with
  | '.' :: '/' :: rest => rest
  | _ => p

/-- Modelled from the spec: a path qualifies when it starts with one of
the configured allowed prefixes. -/
def pathAllowed (allowed : List (List Char)) (p : List Char) : Bool :=
  allowed.any (fun a => a.isPrefixOf (stripDotSlash p))

/-- Modelled from the spec: override to safe only when the extracted path
list is non-empty and every extracted path is allowed. -/
def CommandSafetyGate.overrideSafe (allowed : List (List Char)) (paths : List (List Char)) : Bool :=
  !paths.isEmpty && paths.all (pathAllowed allowed)

/-- Modelled from the spec: `classify(command, allowedDirectoryPrefixes)`.
Normalize, flag via Stage A or Stage B, then apply the allow-list
override; final verdict = flagged AND NOT override. -/
def CommandSafetyGate.classify (cmd : String) (allowed : List String) : Bool :=
  let toks := CommandSafetyGate.tokens cmd
  let flagged := CommandSafetyGate.stageA toks || CommandSafetyGate.stageB toks
  flagged
    && !(CommandSafetyGate.overrideSafe (allowed.map String.toList)
          (CommandSafetyGate.extractPaths toks))

/-! ### BranchMetadataParser (modelled from the spec, §4.5) -/

/-- Modelled from the spec: color / task metadata carried by a feature
branch name. -/
structure BranchMetadata where
  color : Option String
  task_slug : String
deriving DecidableEq, Repr

/-- Modelled from the spec: result of `BranchMetadataParser.parse`; the
metadata is absent for non-feature branches. -/
structure FeatureBranchMetadata where
  is_feature_branch : Bool
  metadata : Option BranchMetadata
deriving DecidableEq, Repr

/-- Modelled from the spec: a lowercase ASCII letter. -/
def isLowerAlpha (c : Char) : Bool := 'a' ≤ c && c ≤ 'z'

/-- Modelled from the spec: match the remainder against
`<lowercase-letters>-<one-or-more-characters>` — a non-empty lowercase
token, a hyphen, and a non-empty tail. Returns the token and the tail on
a match. -/
def splitColorSlug (r : List Char) : Option (List Char × List Char) :=
  match r.dropWhile isLowerAlpha with
  | '-' :: tail =>
    if r.takeWhile isLowerAlpha ≠ [] && tail ≠ [] then
      some (r.takeWhile isLowerAlpha, tail)
    else none
  | _ => none

/-- Modelled from the spec: the fixed 8-entry recognized color set (the
spec fixes its size but not its members; the set is modelled with eight
common agent colors, including the `blue` used in the spec's examples). -/
def recognizedColors : List (List Char) :=
  ["red", "blue", "green", "yellow", "purple", "orange", "pink", "cyan"].map String.toList

/-- Modelled from the spec: `BranchMetadataParser.parse(branchName)`.
A feature branch starts with the literal, case-sensitive prefix `feat/`;
its remainder decomposes into color and slug only when the split pattern
matches and the leading token is a recognized color, otherwise the whole
remainder becomes the task slug. -/
def BranchMetadataParser.parse (branchName : String) : FeatureBranchMetadata :=
  if "feat/".toList.isPrefixOf branchName.toList then
    let remainder := branchName.toList.drop 5
    match splitColorSlug remainder with
    | some (tok, rest) =>
      if recognizedColors.contains tok then
        ⟨true, some ⟨some (String.mk tok), String.mk rest⟩⟩
      else
        ⟨true, some ⟨none, String.mk remainder⟩⟩
    | none => ⟨true, some ⟨none, String.mk remainder⟩⟩
  else ⟨false, none⟩

/-! ### TTLCache (modelled from the spec, §4.1) -/

/-- Modelled from the spec: the networked key-value store with expiring
entries. `available` is the result of the initial bounded handshake
(permanent for the instance's lifetime). Each entry holds the key, the
decoded payload (`none` models a stored value that fails to decode — a
corrupt entry) and its absolute expiry instant; the newest entry for a
key shadows older ones. -/
structure TTLCache (V : Type) where
  available : Bool
  entries : List (String × Option V × Nat)

/-- Modelled from the spec: `get(key)` — `none` on unavailability, on
miss, on an expired entry, or on a value that fails to decode. -/
def TTLCache.get {V : Type} (c : TTLCache V) (now : Nat) (key : String) : Option V :=
  if c.available then
    match c.entries.find? (fun e => e.1 == key) with
    | some (_, payload, expiry) => if now < expiry then payload else none
    | none => none
  else none

/-- Modelled from the spec: `set(key, value, ttl)` — writes the value with
expiry and returns true, or returns false (leaving the store unchanged)
when the cache is unavailable; never raises. -/
def TTLCache.set {V : Type} (c : TTLCache V) (now : Nat) (key : String) (v : V)
    (ttl : Nat) : TTLCache V × Bool :=
  if c.available then
    ({ c with entries := (key, some v, now + ttl) :: c.entries }, true)
  else (c, false)

/-! ### ProjectContextResolver (modelled from the spec, §4.2) -/

/-- Modelled from the spec: the logical project identity resolved for an
invocation. -/
structure ProjectContext where
  project_name : String
  project_root : String
  git_repo_name : Option String
  last_updated : Nat
deriving DecidableEq, Repr

/-- Modelled from the spec: split a character list on `/` separators,
keeping empty segments (mirrors splitting a path string on every
slash). -/
def splitOnSlash : List Char → List Char → List (List Char)
  | [], acc => [acc.reverse]
  | c :: cs, acc =>
    if c = '/' then acc.reverse :: splitOnSlash cs []
    else splitOnSlash cs (c :: acc)

/-- Modelled from the spec: the final path segment of a path. -/
def lastSegment (p : String) : String :=
  String.mk (((splitOnSlash p.toList []).getLast?).getD [])

/-- Modelled from the spec: extract a repository name from a remote origin
URL — the text after the last `/`, with a trailing `.git` stripped. -/
def extractRepoName (url : String) : String :=
  let seg := lastSegment url
  if seg.endsWith ".git" then seg.dropRight 4 else seg

/-- Modelled from the spec: the cache key `project:<name>:context`. -/
def projectKey (name : String) : String :=
  "project:" ++ name ++ ":context"

/-- Modelled from the spec: assemble a fresh ProjectContext (steps 2–4 of
resolve): pick the project name, take the explicit git-repo override or
the repository name extracted from the remote lookup result (absent on
lookup failure, modelled by `remoteUrl = none`), write back with TTL
3600, return. -/
def ProjectContextResolver.fresh (cwd name : String) (repoOverride remoteUrl : Option String)
    (cache : TTLCache ProjectContext) (now : Nat) : ProjectContext × TTLCache ProjectContext :=
  let repo := match repoOverride with
    | some r => some r
    | none => Option.map extractRepoName remoteUrl
  let ctx : ProjectContext := ⟨name, cwd, repo, now⟩
  (ctx, (cache.set now (projectKey name) ctx 3600).1)

/-- Modelled from the spec: `resolve(cwd, declaredProjectName, cache)`.
When a project name is declared and the cache holds
`project:<name>:context`, return the cached snapshot verbatim; otherwise
assemble a fresh context (project name defaults to the final segment of
`cwd`) and write it back. -/
def ProjectContextResolver.resolve (cwd : String) (declared repoOverride remoteUrl : Option String)
    (cache : TTLCache ProjectContext) (now : Nat) : ProjectContext × TTLCache ProjectContext :=
  match declared with
  | some name =>
    match cache.get now (projectKey name) with
    | some ctx => (ctx, cache)
    | none => ProjectContextResolver.fresh cwd name repoOverride remoteUrl cache now
  | none => ProjectContextResolver.fresh cwd (lastSegment cwd) repoOverride remoteUrl cache now

/-! ### WorktreeContextResolver path auto-detection (modelled from the spec, §4.3) -/

/-- Modelled from the spec: scan the path's segments left to right and
stop at the first segment literally equal to `agents` or `worktrees`
that has a following segment. If the following segment starts with
`agent_` the color is the remainder after that prefix; if the matched
segment is exactly `worktrees` the following segment itself is the
color. -/
def WorktreeContextResolver.detectAgentColor : List (List Char) → Option (List Char)
  | [] => none
  | [_] => none
  | s :: n :: rest =>
    if s = "agents".toList ∨ s = "worktrees".toList then
      if "agent_".toList.isPrefixOf n then some (n.drop 6)
      else if s = "worktrees".toList then some n
      else none
    else WorktreeContextResolver.detectAgentColor (n :: rest)

/-- Modelled from the spec: split a filesystem path into its non-empty
segments. -/
def WorktreeContextResolver.pathSegments (p : String) : List (List Char) :=
  (splitOnSlash p.toList []).filter (fun s => s ≠ [])

/-- Modelled from the spec: path auto-detection of the agent color. -/
def WorktreeContextResolver.detectFromPath (p : String) : Option String :=
  Option.map String.mk
    (WorktreeContextResolver.detectAgentColor (WorktreeContextResolver.pathSegments p))

/-! ### GitContextReader (modelled from the spec, §4.4) -/

/-- Modelled from the spec: branch/status data written by the external
producer; this core only reads it. -/
structure GitContext where
  branch : Option String
  modified_files : List String
  modified_files_count : Nat
  recent_commits : List String
  last_updated : Nat
deriving DecidableEq, Repr

/-- Modelled from the spec: the cache key
`project:<p>[:worktree:<w>]:git`. -/
def GitContextReader.gitKey (p : String) (w : Option String) : String :=
  "project:" ++ p ++ (match w with | some wn => ":worktree:" ++ wn | none => "") ++ ":git"

/-- Modelled from the spec: `read(projectName, worktreeName, cache)` — a
pure cache read; `none` on unavailability or miss, never invoking
version-control tooling. -/
def GitContextReader.read (p : String) (w : Option String)
    (cache : TTLCache GitContext) (now : Nat) : Option GitContext :=
  cache.get now (GitContextReader.gitKey p w)

/-! ### Backend render configuration (src/backend/app/schemas/render.py,
src/backend/app/schemas/enums.py, src/backend/app/services/render_utils.py) -/

/-- `Instrument` (schemas/enums.py) is a string-valued enum with over a
hundred distinct members; it is embedded as its string value. -/
abbrev Instrument := String

/-- `ReverbLevel` string enum (schemas/enums.py). -/
inductive ReverbLevel
  | none
  | low
  | medium
  | high
deriving DecidableEq, Repr

/-- `VelocityStyle` string enum (schemas/enums.py). -/
inductive VelocityStyle
  | even
  | dynamic
  | soft
  | aggressive
deriving DecidableEq, Repr

/-- `ChordVoicing` string enum (schemas/enums.py). -/
inductive ChordVoicing
  | block
  | arpeggiated_up
  | arpeggiated_down
  | broken_slow
  | sparse
deriving DecidableEq, Repr

/-- `RenderConfig` (schemas/render.py): the effective render
configuration. -/
structure RenderConfig where
  melody_instrument : Instrument
  chords_instrument : Instrument
  bass_instrument : Option Instrument
  transpose_semitones : Int
  tempo_bpm : Option Int
  reverb : ReverbLevel
  velocity_style : VelocityStyle
  chord_voicing : ChordVoicing
deriving DecidableEq, Repr

/-- `RenderOverrides` (schemas/render.py): every field is optional and
defaults to null. The outer `Option` records whether the field was
explicitly set at construction (pydantic's
`model_dump(exclude_unset=True)` keeps only those), the inner `Option`
is the field's nullable value. -/
structure RenderOverrides where
  melody_instrument : Option (Option Instrument)
  chords_instrument : Option (Option Instrument)
  bass_instrument : Option (Option Instrument)
  transpose_semitones : Option (Option Int)
  tempo_bpm : Option (Option Int)
  reverb : Option (Option ReverbLevel)
  velocity_style : Option (Option VelocityStyle)
  chord_voicing : Option (Option ChordVoicing)
deriving DecidableEq, Repr

/-- One field of the `apply_overrides` loop for a required config field:
the override value replaces the base value only when the field was
explicitly set and is not null. -/
def applyField {α : Type} (b : α) : Option (Option α) → α
  | some (some v) => v
  | _ => b

/-- One field of the `apply_overrides` loop for a nullable config field:
an explicitly-set non-null override replaces the base value; a null or
unset override leaves it. -/
def applyOptField {α : Type} (b : Option α) : Option (Option α) → Option α
  | some (some v) => some v
  | _ => b

/-- `apply_overrides(base, overrides)` (services/render_utils.py): when
`overrides` is falsy (None) return `base`; otherwise copy `base` and
replace exactly the fields that were explicitly set to a non-None value
in `overrides`. -/
def apply_overrides (base : RenderConfig) (overrides : Option RenderOverrides) : RenderConfig :=
  match overrides with
  | none => base
  | some o =>
    { melody_instrument := applyField base.melody_instrument o.melody_instrument
      chords_instrument := applyField base.chords_instrument o.chords_instrument
      bass_instrument := applyOptField base.bass_instrument o.bass_instrument
      transpose_semitones := applyField base.transpose_semitones o.transpose_semitones
      tempo_bpm := applyOptField base.tempo_bpm o.tempo_bpm
      reverb := applyField base.reverb o.reverb
      velocity_style := applyField base.velocity_style o.velocity_style
      chord_voicing := applyField base.chord_voicing o.chord_voicing }

/-! ### Backend MIDI quantization (src/backend/app/services/midi_utils.py) -/

/-- A `pretty_midi.Note`: timings are embedded as exact rationals. -/
structure Note where
  velocity : Int
  pitch : Int
  start : ℚ
  «end» : ℚ
deriving DecidableEq, Repr

/-- Python's builtin `round` on a rational: nearest integer, ties to the
even integer (banker's rounding). -/
def pyRound (x : ℚ) : ℤ :=
  let f := x.floor
  let r := x - f
  if r < 1 / 2 then f
  else if 1 / 2 < r then f + 1
  else if f % 2 = 0 then f else f + 1

/-- The body of the `quantize_notes` loop (services/midi_utils.py) for one
note: snap start and end to the grid; when the snapped end does not lie
strictly after the snapped start, push the end one grid step after the
start. -/
def quantizeNote (grid : ℚ) (note : Note) : Note :=
  let s := pyRound (note.start / grid) * grid
  let e := pyRound (note.«end» / grid) * grid
  if e ≤ s then { note with start := s, «end» := s + grid }
  else { note with start := s, «end» := e }

/-- `quantize_notes(instrument, grid)` (services/midi_utils.py): quantize
every note of the instrument; the in-place mutation of
`instrument.notes` is embedded as a map over the note list. -/
def quantize_notes (notes : List Note) (grid : ℚ) : List Note :=
  notes.map (quantizeNote grid)

/-! ### Helper lemmas -/

theorem overrideSafe_nil (paths : List (List Char)) :
    CommandSafetyGate.overrideSafe [] paths = false := by
  cases paths with
  | nil => rfl
  | cons p ps => simp [CommandSafetyGate.overrideSafe, pathAllowed]

theorem classify_empty_allowlist_of_stageA {cmd : String}
    (h : CommandSafetyGate.stageA (CommandSafetyGate.tokens cmd) = true) :
    CommandSafetyGate.classify cmd [] = true := by
  simp [CommandSafetyGate.classify, h, overrideSafe_nil]

/-! ### Claim theorems: CommandSafetyGate -/

/-- C1: every command whose normalized token list matches the Stage A
recursive-force delete pattern bank is classified dangerous under an
empty allowed-prefix list; in particular `rm -rf ~` and
`rm --recursive --force /`. -/
theorem CommandSafetyGate.classify_recursive_force_dangerous :
    (∀ cmd : String, CommandSafetyGate.stageA (CommandSafetyGate.tokens cmd) = true →
        CommandSafetyGate.classify cmd [] = true) ∧
    CommandSafetyGate.classify "rm -rf ~" [] = true ∧
    CommandSafetyGate.classify "rm --recursive --force /" [] = true :=
  ⟨fun _ h => classify_empty_allowlist_of_stageA h, by decide, by decide⟩

theorem CommandSafetyGate.classify_recursive_force_dangerous_witness :
    CommandSafetyGate.stageA (CommandSafetyGate.tokens "rm -fr x") = true ∧
    CommandSafetyGate.classify "rm -fr x" [] = true :=
  ⟨by decide, CommandSafetyGate.classify_recursive_force_dangerous.1 "rm -fr x" (by decide)⟩

/-- C2: for a flagged command, the verdict is overridden to not-dangerous
exactly when the extracted path list is non-empty and every extracted
path (quotes stripped, optional leading `./` accepted) starts with a
configured allowed prefix; an empty extracted-path list stays dangerous;
in particular the two classify examples with `trees/` allow-lists. -/
theorem CommandSafetyGate.classify_override_iff :
    (∀ (cmd : String) (allowed : List String),
        (CommandSafetyGate.stageA (CommandSafetyGate.tokens cmd)
          || CommandSafetyGate.stageB (CommandSafetyGate.tokens cmd)) = true →
        (CommandSafetyGate.classify cmd allowed = false ↔
          CommandSafetyGate.extractPaths (CommandSafetyGate.tokens cmd) ≠ [] ∧
          ∀ p ∈ CommandSafetyGate.extractPaths (CommandSafetyGate.tokens cmd),
            ∃ a ∈ allowed, a.toList.isPrefixOf (stripDotSlash p) = true)) ∧
    CommandSafetyGate.classify "rm -rf trees/scratch" ["trees/", "worktrees/"] = false ∧
    CommandSafetyGate.classify "rm -rf trees/a /etc" ["trees/"] = true ∧
    (∀ (cmd : String) (allowed : List String),
        (CommandSafetyGate.stageA (CommandSafetyGate.tokens cmd)
          || CommandSafetyGate.stageB (CommandSafetyGate.tokens cmd)) = true →
        CommandSafetyGate.extractPaths (CommandSafetyGate.tokens cmd) = [] →
        CommandSafetyGate.classify cmd allowed = true) := by
  refine ⟨fun cmd allowed h => ?_, by decide, by decide, fun cmd allowed h hp => ?_⟩
  · simp [CommandSafetyGate.classify, CommandSafetyGate.overrideSafe, pathAllowed, h,
      List.all_eq_true, List.any_eq_true, List.mem_map, List.isEmpty_iff]
  · simp [CommandSafetyGate.classify, CommandSafetyGate.overrideSafe, h, hp]

theorem CommandSafetyGate.classify_override_iff_witness :
    (CommandSafetyGate.stageA (CommandSafetyGate.tokens "rm -rf worktrees/w")
      || CommandSafetyGate.stageB (CommandSafetyGate.tokens "rm -rf worktrees/w")) = true ∧
    CommandSafetyGate.classify "rm -rf worktrees/w" ["worktrees/"] = false :=
  ⟨by decide,
    (CommandSafetyGate.classify_override_iff.1 "rm -rf worktrees/w" ["worktrees/"]
      (by decide)).mpr (by decide)⟩

/-! ### Claim theorems: BranchMetadataParser -/

theorem takeWhile_lower_append (tok rest : List Char)
    (hlow : ∀ c ∈ tok, isLowerAlpha c = true) :
    (tok ++ '-' :: rest).takeWhile isLowerAlpha = tok := by
  induction tok with
  | nil => simp [List.takeWhile_cons, isLowerAlpha]
  | cons c cs ih =>
    simp only [List.cons_append]
    rw [List.takeWhile_cons_of_pos (hlow c (by simp))]
    rw [ih (fun x hx => hlow x (by simp [hx]))]

theorem dropWhile_lower_append (tok rest : List Char)
    (hlow : ∀ c ∈ tok, isLowerAlpha c = true) :
    (tok ++ '-' :: rest).dropWhile isLowerAlpha = '-' :: rest := by
  induction tok with
  | nil => simp [List.dropWhile_cons, isLowerAlpha]
  | cons c cs ih =>
    simp only [List.cons_append]
    rw [List.dropWhile_cons_of_pos (hlow c (by simp))]
    exact ih (fun x hx => hlow x (by simp [hx]))

theorem splitColorSlug_of_decomp {tok rest : List Char} (htok : tok ≠ [])
    (hlow : ∀ c ∈ tok, isLowerAlpha c = true) (hrest : rest ≠ []) :
    splitColorSlug (tok ++ '-' :: rest) = some (tok, rest) := by
  unfold splitColorSlug
  rw [dropWhile_lower_append tok rest hlow]
  rw [takeWhile_lower_append tok rest hlow]
  simp [htok, hrest]

theorem splitColorSlug_some_decomp {r tok rest : List Char}
    (h : splitColorSlug r = some (tok, rest)) :
    r = tok ++ '-' :: rest ∧ tok ≠ [] ∧ (∀ c ∈ tok, isLowerAlpha c = true) ∧ rest ≠ [] := by
  unfold splitColorSlug at h
  split at h
  next tail heq =>
    split at h
    next hcond =>
      simp only [Option.some.injEq, Prod.mk.injEq] at h
      obtain ⟨rfl, rfl⟩ := h
      simp only [ne_eq, decide_not, Bool.and_eq_true, Bool.not_eq_true',
        decide_eq_false_iff_not] at hcond
      refine ⟨?_, hcond.1, ?_, hcond.2⟩
      · conv_lhs => rw [← List.takeWhile_append_dropWhile (p := isLowerAlpha) (l := r)]
        rw [heq]
      · intro x hx
        exact List.mem_takeWhile_imp hx
    next => simp at h
  next => simp at h

/-- C3: `parse("feat/blue-")` keeps the documented quirk — a hyphen with
nothing after it does not decompose into a color and an empty slug, so
the whole remainder `blue-` becomes the task slug and no color is
extracted. -/
theorem BranchMetadataParser.parse_trailing_hyphen :
    BranchMetadataParser.parse "feat/blue-" = ⟨true, some ⟨none, "blue-"⟩⟩ := by decide

/-- C4: a branch is a feature branch exactly when it starts with the
case-sensitive literal `feat/`; a feature remainder decomposing at the
first hyphen into a non-empty lowercase recognized color and a non-empty
tail yields {color, task_slug = tail}; every other feature remainder
yields {task_slug = whole remainder, no color}; non-feature branches
carry no metadata. -/
theorem BranchMetadataParser.parse_spec (b : String) :
    ((BranchMetadataParser.parse b).is_feature_branch = "feat/".toList.isPrefixOf b.toList) ∧
    ("feat/".toList.isPrefixOf b.toList = false →
        (BranchMetadataParser.parse b).metadata = none) ∧
    (∀ tok rest : List Char,
        "feat/".toList.isPrefixOf b.toList = true →
        b.toList.drop 5 = tok ++ '-' :: rest →
        tok ≠ [] → (∀ c ∈ tok, isLowerAlpha c = true) → rest ≠ [] →
        recognizedColors.contains tok = true →
        (BranchMetadataParser.parse b).metadata
          = some ⟨some (String.mk tok), String.mk rest⟩) ∧
    ("feat/".toList.isPrefixOf b.toList = true →
        (¬ ∃ tok rest : List Char, b.toList.drop 5 = tok ++ '-' :: rest ∧ tok ≠ [] ∧
            (∀ c ∈ tok, isLowerAlpha c = true) ∧ rest ≠ [] ∧
            recognizedColors.contains tok = true) →
        (BranchMetadataParser.parse b).metadata
          = some ⟨none, String.mk (b.toList.drop 5)⟩) := by
  refine ⟨?_, ?_, ?_, ?_⟩
  · cases hb : "feat/".toList.isPrefixOf b.toList with
    | false => simp only [BranchMetadataParser.parse, hb, Bool.false_eq_true, if_false]
    | true =>
      simp only [BranchMetadataParser.parse, hb, if_true]
      split
      · split <;> rfl
      · rfl
  · intro hb
    simp only [BranchMetadataParser.parse, hb, Bool.false_eq_true, if_false]
  · intro tok rest hb hdrop htok hlow hrest hcol
    simp only [BranchMetadataParser.parse, hb, if_true]
    rw [hdrop, splitColorSlug_of_decomp htok hlow hrest]
    simp only [hcol, if_true]
  · intro hb hnot
    simp only [BranchMetadataParser.parse, hb, if_true]
    cases hs : splitColorSlug (b.toList.drop 5) with
    | none => rfl
    | some pr =>
      obtain ⟨tok, rest⟩ := pr
      obtain ⟨hdec, htok, hlow, hrest⟩ := splitColorSlug_some_decomp hs
      by_cases hc : recognizedColors.contains tok = true
      · exact absurd ⟨tok, rest, hdec, htok, hlow, hrest, hc⟩ hnot
      · show (if recognizedColors.contains tok = true then
              (⟨true, some ⟨some (String.mk tok), String.mk rest⟩⟩ : FeatureBranchMetadata)
            else ⟨true, some ⟨none, String.mk (b.toList.drop 5)⟩⟩).metadata
          = some ⟨none, String.mk (b.toList.drop 5)⟩
        rw [if_neg hc]

theorem BranchMetadataParser.parse_spec_witness :
    (BranchMetadataParser.parse "feat/blue-x").metadata = some ⟨some "blue", "x"⟩ :=
  (BranchMetadataParser.parse_spec "feat/blue-x").2.2.1 "blue".toList "x".toList
    (by decide) (by decide) (by decide) (by decide) (by decide) (by decide)

/-! ### Claim theorems: TTLCache -/

theorem TTLCache.get_set_same {V : Type} (c : TTLCache V) (now t : Nat) (k : String)
    (v : V) (ttl : Nat) (hav : c.available = true) :
    (c.set now k v ttl).1.get t k = if t < now + ttl then some v else none := by
  simp [TTLCache.set, TTLCache.get, hav, List.find?]

theorem TTLCache.set_unavailable {V : Type} (c : TTLCache V) (now : Nat) (k : String)
    (v : V) (ttl : Nat) (hav : c.available = false) :
    c.set now k v ttl = (c, false) := by
  simp [TTLCache.set, hav]

theorem TTLCache.get_unavailable {V : Type} (c : TTLCache V) (now : Nat) (k : String)
    (hav : c.available = false) :
    c.get now k = none := by
  simp [TTLCache.get, hav]

/-- C5: on an available cache, `set(k, v, ttl)` with positive ttl followed
immediately by `get(k)` returns a value structurally equal to `v`, and
after the TTL has expired `get(k)` returns none. -/
theorem TTLCache.set_get_roundtrip {V : Type} (c : TTLCache V) (now : Nat) (k : String)
    (v : V) (ttl : Nat) (hav : c.available = true) (httl : 0 < ttl) :
    (c.set now k v ttl).1.get now k = some v ∧
    ∀ t, now + ttl ≤ t → (c.set now k v ttl).1.get t k = none := by
  constructor
  · rw [TTLCache.get_set_same c now now k v ttl hav]
    simp [httl]
  · intro t ht
    rw [TTLCache.get_set_same c now t k v ttl hav]
    simp [Nat.not_lt.mpr ht]

theorem TTLCache.set_get_roundtrip_witness :
    ((⟨true, []⟩ : TTLCache Nat).set 0 "k" 7 5).1.get 0 "k" = some 7 ∧
    ((⟨true, []⟩ : TTLCache Nat).set 0 "k" 7 5).1.get 5 "k" = none :=
  ⟨(TTLCache.set_get_roundtrip ⟨true, []⟩ 0 "k" 7 5 rfl (by decide)).1,
    (TTLCache.set_get_roundtrip ⟨true, []⟩ 0 "k" 7 5 rfl (by decide)).2 5 (by decide)⟩

/-! ### Claim theorems: ProjectContextResolver -/

/-- C6: resolution is deterministic — as a pure function of its inputs it
returns structurally identical results on identical cwd, declared name
and cache state — and idempotent: a second call against the cache left
by a first call (warm cache) returns the structurally identical
context. -/
theorem ProjectContextResolver.resolve_idempotent (cwd : String)
    (declared repoOverride remoteUrl : Option String)
    (cache : TTLCache ProjectContext) (now : Nat) :
    (ProjectContextResolver.resolve cwd declared repoOverride remoteUrl cache now
      = ProjectContextResolver.resolve cwd declared repoOverride remoteUrl cache now) ∧
    (ProjectContextResolver.resolve cwd declared repoOverride remoteUrl
        ((ProjectContextResolver.resolve cwd declared repoOverride remoteUrl cache now).2) now).1
      = (ProjectContextResolver.resolve cwd declared repoOverride remoteUrl cache now).1 := by
  refine ⟨rfl, ?_⟩
  cases declared with
  | none => rfl
  | some name =>
    cases hget : cache.get now (projectKey name) with
    | some ctx =>
      simp [ProjectContextResolver.resolve, hget]
    | none =>
      cases hav : cache.available with
      | true =>
        simp only [ProjectContextResolver.resolve, hget]
        rw [show (ProjectContextResolver.fresh cwd name repoOverride remoteUrl cache now).2
            = (cache.set now (projectKey name)
                (ProjectContextResolver.fresh cwd name repoOverride remoteUrl cache now).1 3600).1
          from rfl]
        rw [TTLCache.get_set_same cache now now (projectKey name) _ 3600 hav]
        simp
      | false =>
        simp only [ProjectContextResolver.resolve, hget]
        rw [show (ProjectContextResolver.fresh cwd name repoOverride remoteUrl cache now).2
            = (cache.set now (projectKey name)
                (ProjectContextResolver.fresh cwd name repoOverride remoteUrl cache now).1 3600).1
          from rfl]
        rw [TTLCache.set_unavailable cache now (projectKey name) _ 3600 hav]
        simp [hget]

/-! ### Claim theorems: WorktreeContextResolver -/

/-- C7: path auto-detection scans segments left to right and stops at the
first `agents` or `worktrees` segment that has a following segment, so a
shallower match always wins over a deeper one; in particular
`.../agents/agent_blue/worktrees/red/proj` resolves agent color
`blue`. -/
theorem WorktreeContextResolver.detect_leftmost :
    (∀ (n : List Char) (rest : List (List Char)),
        WorktreeContextResolver.detectAgentColor ("agents".toList :: n :: rest)
          = if "agent_".toList.isPrefixOf n then some (n.drop 6) else none) ∧
    (∀ (n : List Char) (rest : List (List Char)),
        WorktreeContextResolver.detectAgentColor ("worktrees".toList :: n :: rest)
          = if "agent_".toList.isPrefixOf n then some (n.drop 6) else some n) ∧
    (∀ (s n : List Char) (rest : List (List Char)),
        s ≠ "agents".toList → s ≠ "worktrees".toList →
        WorktreeContextResolver.detectAgentColor (s :: n :: rest)
          = WorktreeContextResolver.detectAgentColor (n :: rest)) ∧
    WorktreeContextResolver.detectFromPath "/home/user/agents/agent_blue/worktrees/red/proj"
      = some "blue" := by
  refine ⟨?_, ?_, ?_, by decide⟩
  · intro n rest
    simp [WorktreeContextResolver.detectAgentColor]
  · intro n rest
    simp [WorktreeContextResolver.detectAgentColor]
  · intro s n rest h1 h2
    simp at h1 h2
    simp [WorktreeContextResolver.detectAgentColor, h1, h2]

theorem WorktreeContextResolver.detect_leftmost_witness :
    WorktreeContextResolver.detectAgentColor
        ["proj".toList, "agents".toList, "agent_blue".toList]
      = WorktreeContextResolver.detectAgentColor ["agents".toList, "agent_blue".toList] :=
  WorktreeContextResolver.detect_leftmost.2.2.1 "proj".toList "agents".toList
    ["agent_blue".toList] (by decide) (by decide)

/-! ### Claim theorems: totality and conservative defaults -/

/-- C8: the public operations are total functions of the model; malformed
inputs produce conservative defaults rather than errors — an empty
command matches no pattern and is not dangerous for every allow-list, an
empty branch name is not a feature branch and has no metadata, an
unavailable cache makes get/set/read return their miss defaults without
failing, the project resolver still produces a context on an empty cwd,
and path detection on an empty path yields no color. -/
theorem core_total_defaults :
    (∀ allowed : List String, CommandSafetyGate.classify "" allowed = false) ∧
    BranchMetadataParser.parse "" = ⟨false, none⟩ ∧
    (∀ (V : Type) (entries : List (String × Option V × Nat)) (now : Nat) (k : String),
        (TTLCache.mk false entries).get now k = none) ∧
    (∀ (V : Type) (entries : List (String × Option V × Nat)) (now : Nat) (k : String)
        (v : V) (ttl : Nat),
        (TTLCache.mk false entries).set now k v ttl = (⟨false, entries⟩, false)) ∧
    (∀ (p : String) (w : Option String) (entries : List (String × Option GitContext × Nat))
        (now : Nat),
        GitContextReader.read p w ⟨false, entries⟩ now = none) ∧
    (∀ (cache : TTLCache ProjectContext) (now : Nat),
        (ProjectContextResolver.resolve "" none none none cache now).1.project_name = "") ∧
    WorktreeContextResolver.detectFromPath "" = none := by
  refine ⟨?_, by decide, ?_, ?_, ?_, ?_, by decide⟩
  · intro allowed
    have ht : CommandSafetyGate.tokens "" = [] := rfl
    simp [CommandSafetyGate.classify, ht, CommandSafetyGate.stageA, CommandSafetyGate.stageB]
  · intro V entries now k
    exact TTLCache.get_unavailable ⟨false, entries⟩ now k rfl
  · intro V entries now k v ttl
    exact TTLCache.set_unavailable ⟨false, entries⟩ now k v ttl rfl
  · intro p w entries now
    exact TTLCache.get_unavailable ⟨false, entries⟩ now _ rfl
  · intro cache now
    rfl

/-! ### Claim theorems: backend apply_overrides and quantize_notes -/

/-- C9: apply_overrides returns the base configuration unchanged when
overrides is None, and a field keeps its base value whenever it is unset
or explicitly null in the overrides — so only fields explicitly set to a
non-null value can differ from the base. -/
theorem apply_overrides_frame (base : RenderConfig) :
    apply_overrides base none = base ∧
    ∀ o : RenderOverrides,
      ((o.melody_instrument = none ∨ o.melody_instrument = some none) →
          (apply_overrides base (some o)).melody_instrument = base.melody_instrument) ∧
      ((o.chords_instrument = none ∨ o.chords_instrument = some none) →
          (apply_overrides base (some o)).chords_instrument = base.chords_instrument) ∧
      ((o.bass_instrument = none ∨ o.bass_instrument = some none) →
          (apply_overrides base (some o)).bass_instrument = base.bass_instrument) ∧
      ((o.transpose_semitones = none ∨ o.transpose_semitones = some none) →
          (apply_overrides base (some o)).transpose_semitones = base.transpose_semitones) ∧
      ((o.tempo_bpm = none ∨ o.tempo_bpm = some none) →
          (apply_overrides base (some o)).tempo_bpm = base.tempo_bpm) ∧
      ((o.reverb = none ∨ o.reverb = some none) →
          (apply_overrides base (some o)).reverb = base.reverb) ∧
      ((o.velocity_style = none ∨ o.velocity_style = some none) →
          (apply_overrides base (some o)).velocity_style = base.velocity_style) ∧
      ((o.chord_voicing = none ∨ o.chord_voicing = some none) →
          (apply_overrides base (some o)).chord_voicing = base.chord_voicing) := by
  refine ⟨rfl, fun o => ⟨?_, ?_, ?_, ?_, ?_, ?_, ?_, ?_⟩⟩ <;>
    (rintro (h | h) <;> simp [apply_overrides, applyField, applyOptField, h])

/-- A neutral configuration used to instantiate the frame theorem. -/
def sampleConfig : RenderConfig :=
  ⟨"acoustic_grand_piano", "celesta", none, 0, none,
    ReverbLevel.medium, VelocityStyle.even, ChordVoicing.block⟩

/-- Overrides with every field left unset. -/
def emptyOverrides : RenderOverrides :=
  ⟨none, none, none, none, none, none, none, none⟩

theorem apply_overrides_frame_witness :
    apply_overrides sampleConfig none = sampleConfig ∧
    (apply_overrides sampleConfig (some emptyOverrides)).melody_instrument
      = sampleConfig.melody_instrument ∧
    (apply_overrides sampleConfig (some emptyOverrides)).tempo_bpm
      = sampleConfig.tempo_bpm :=
  ⟨(apply_overrides_frame sampleConfig).1,
    ((apply_overrides_frame sampleConfig).2 emptyOverrides).1 (Or.inl rfl),
    ((apply_overrides_frame sampleConfig).2 emptyOverrides).2.2.2.2.1 (Or.inl rfl)⟩

/-- C10: after quantization with a positive grid, every note ends strictly
after it starts, and both endpoints are integer multiples of the grid —
the end being pushed to start + grid exactly when snapping collapsed the
note. -/
theorem quantize_notes_end_gt_start (notes : List Note) (grid : ℚ) (hg : 0 < grid) :
    ∀ m ∈ quantize_notes notes grid,
      m.start < m.«end» ∧ (∃ a : ℤ, m.start = a * grid) ∧ (∃ b : ℤ, m.«end» = b * grid) := by
  intro m hm
  obtain ⟨n, -, rfl⟩ := List.mem_map.mp hm
  dsimp only [quantizeNote]
  split_ifs with h
  · refine ⟨by linarith, ⟨pyRound (n.start / grid), rfl⟩,
      ⟨pyRound (n.start / grid) + 1, by push_cast; ring⟩⟩
  · exact ⟨lt_of_not_le h, ⟨pyRound (n.start / grid), rfl⟩, ⟨pyRound (n.«end» / grid), rfl⟩⟩

theorem quantize_notes_end_gt_start_witness :
    (0 : ℚ) < 1 / 4 ∧
    (quantizeNote (1 / 4) ⟨100, 60, 0, 0⟩).start < (quantizeNote (1 / 4) ⟨100, 60, 0, 0⟩).«end» :=
  ⟨by norm_num,
    (quantize_notes_end_gt_start [⟨100, 60, 0, 0⟩] (1 / 4) (by norm_num)
      (quantizeNote (1 / 4) ⟨100, 60, 0, 0⟩) (by simp [quantize_notes])).1⟩
